import Mathlib

/-!
Shallow embedding of `r53-find` (src/index.js): a one-shot Route 53
reconnaissance tool that lists every hosted zone, lists every record set of
every zone, and filters the aggregated candidate values against a target
(string equality or regex).

Modelling conventions:
  * JS objects become Lean structures with the same field names
    (`Id`, `Name`, `Type`, `AliasTarget`, `ResourceRecords`, `Value`,
    `DNSName`); optional/possibly-`undefined` fields become `Option`.
  * The AWS client (`client.send`) becomes an explicit function argument
    from request parameters to `Except String response` (`.error` models a
    thrown API error).  Recursive pagination gets a fuel parameter; `none`
    as the outer result means the fuel ran out (the JS code would still be
    looping through pages), and is distinct from an API error.
  * A JS `Set` holds object references.  The `HostedZone` objects pushed
    into the set in `_listHostedZones` are freshly parsed from each API
    response, so two structurally equal zones from two pages are distinct
    objects and `Set.prototype.add` appends both; JS sets also iterate in
    insertion order.  Hence the set of zones is embedded as a `List` to
    which every parsed zone is appended.
  * Thrown exceptions (API errors, invalid regex patterns) become
    `Except`/`Option` propagation.
-/

/-- A hosted zone as parsed from a `ListHostedZones` response
(only the fields the program reads). -/
structure HostedZone where
  Id : String
  Name : String
deriving Repr, DecidableEq

/-- `AliasTarget` member of a record set (only `DNSName` is read). -/
structure AliasTarget where
  DNSName : String
deriving Repr, DecidableEq

/-- One element of a record set's `ResourceRecords` array. -/
structure ResourceRecord where
  Value : String
deriving Repr, DecidableEq

/-- A record set as parsed from a `ListResourceRecordSets` response.
`AliasTarget` and `ResourceRecords` may each be absent (`undefined` in JS,
`none` here); a present-but-empty `ResourceRecords` array is `some []`
(an empty JS array is truthy, so it still selects the literal branch). -/
structure ResourceRecordSet where
  Name : String
  «Type» : String
  AliasTarget : Option AliasTarget
  ResourceRecords : Option (List ResourceRecord)
deriving Repr, DecidableEq

/-- A hosted zone after `_getRecordSetsForZones` has attached
`hostedZone.recordSets` (the JS code mutates the zone object; we model the
mutated object as a separate structure). -/
structure HostedZoneFull where
  Id : String
  Name : String
  recordSets : List ResourceRecordSet
deriving Repr, DecidableEq

/-- The object built by `_createResultEntry`. -/
structure ResultEntry where
  hostedZoneId : String
  hostedZoneName : String
  recordType : String
  recordName : String
  recordValue : String
deriving Repr, DecidableEq

/-- `options.match` after `_parseArgs`: `'regex'` or the default
`'equality'`. -/
inductive MatchMode where
  | equality
  | regex
deriving Repr, DecidableEq

/-- The fields of the parsed `options` object that the matching engine
reads (`options.record` and `options.match`; the reporting-only fields are
out of scope).  The JS field `match` is a Lean keyword, so it is named
`matchMode` here. -/
structure MatchOptions where
  record : String
  matchMode : MatchMode
deriving Repr, DecidableEq

/-- JS `String.prototype.split` with a one-character separator, on the
character list of the string: splits at every occurrence of `sep`, keeping
empty segments (so `"/hostedzone/Z1".split('/')` is `["", "hostedzone",
"Z1"]`).  The result is never empty. -/
def jsSplit (sep : Char) : List Char → List (List Char)
  | [] => [[]]
  | c :: rest =>
    let r := jsSplit sep rest
    if c = sep then [] :: r
    else
      match r with
      | [] => [[c]]
      | g :: gs => (c :: g) :: gs

/-- `hostedZone.Id.split('/').pop()`: the final `/`-separated token of the
id (the whole id when it contains no `/`). -/
def normalizeId (s : String) : String :=
  ⟨((jsSplit '/' s.data).getLast?).getD []⟩

/-- The zone object after the in-place mutation
`hostedZone.Id = hostedZone.Id.split('/').pop()` in `_listHostedZones`. -/
def normalizeZone (z : HostedZone) : HostedZone :=
  { z with Id := normalizeId z.Id }

/-- `jsSplit` never returns the empty list. -/
theorem jsSplit_ne_nil (sep : Char) (l : List Char) : jsSplit sep l ≠ [] := by
  cases l with
  | nil => simp [jsSplit]
  | cons c rest =>
    simp only [jsSplit]
    split
    · simp
    · split
      · simp
      · simp

/-- Splitting a list that does not contain the separator yields the
singleton list of the whole input. -/
theorem jsSplit_of_not_mem (sep : Char) (l : List Char) (h : sep ∉ l) :
    jsSplit sep l = [l] := by
  induction l with
  | nil => rfl
  | cons c rest ih =>
    simp only [List.mem_cons, not_or] at h
    simp only [jsSplit]
    rw [if_neg (fun hc => h.1 (by rw [hc]))]
    rw [ih h.2]

/-- A string with no `/` is left unchanged by `normalizeId`. -/
theorem normalizeId_of_no_slash (s : String) (h : '/' ∉ s.data) :
    normalizeId s = s := by
  unfold normalizeId
  rw [jsSplit_of_not_mem _ _ h]
  simp

/-!
### Regular expressions

`_evaluateRecord` runs `new RegExp(options.record).test(recordValue)`.
We embed the subset of JS regular expression syntax used by this tool's
documented patterns: literal characters, `\c` escapes of non-alphanumeric
characters (identity escapes), positive character classes of plain single
characters and in-order plain ranges (`[0-9]`), groups `(...)`, counted
repetition written with braces (`\x7bn\x7d` and `\x7bm,n\x7d` with
`m ≤ n`), and the `^` / `$` anchors at the ends of the pattern.  On this
subset the engine agrees with JS semantics.  Everything else makes
`newRegExp` return `none` — both constructs JS supports but this model
does not implement (negated classes `[^...]`, class escapes such as
`[\d]`, `.`/`*`/`+`/`?`/`|`, mid-pattern anchors, ranges with escaped
endpoints), and patterns where JS itself throws a SyntaxError
(out-of-order ranges `[9-0]`, out-of-order quantifiers `\x7b2,1\x7d`, a
trailing lone backslash).  `newRegExp` never returns `some` with
semantics diverging from JS.  JS `test` semantics — a search for a match
anywhere in the input, not an anchored full match — are implemented by
`RegExp.test` below.
-/

/-- Regex abstract syntax: the empty language, the empty string, a
character range (a single character `c` is `cls c c`), concatenation,
alternation, and counted repetition (`rep r lo hi`: between `lo` and `hi`
copies of `r`). -/
inductive Regex where
  | emp
  | eps
  | cls (lo hi : Char)
  | seq (r1 r2 : Regex)
  | alt (r1 r2 : Regex)
  | rep (r : Regex) (lo hi : Nat)
deriving Repr, DecidableEq

/-- Does the regex accept the empty string? -/
def Regex.nullable : Regex → Bool
  | .emp => false
  | .eps => true
  | .cls _ _ => false
  | .seq r1 r2 => r1.nullable && r2.nullable
  | .alt r1 r2 => r1.nullable || r2.nullable
  | .rep r lo _ => lo == 0 || r.nullable

/-- Brzozowski derivative: the residual language after consuming `c`. -/
def Regex.deriv : Regex → Char → Regex
  | .emp, _ => .emp
  | .eps, _ => .emp
  | .cls lo hi, c => if lo ≤ c && c ≤ hi then .eps else .emp
  | .seq r1 r2, c =>
    if r1.nullable then .alt (.seq (r1.deriv c) r2) (r2.deriv c)
    else .seq (r1.deriv c) r2
  | .alt r1 r2, c => .alt (r1.deriv c) (r2.deriv c)
  | .rep r lo hi, c =>
    if hi == 0 then .emp
    else .seq (r.deriv c) (.rep r (lo - 1) (hi - 1))

/-- Whole-word acceptance, by iterated derivatives. -/
def Regex.accepts (r : Regex) (s : List Char) : Bool :=
  (s.foldl Regex.deriv r).nullable

/-- A compiled pattern: the body regex plus whether the pattern carried a
leading `^` or a trailing `$`. -/
structure RegExp where
  anchoredStart : Bool
  anchoredEnd : Bool
  body : Regex
deriving Repr, DecidableEq

/-- JS `RegExp.prototype.test`: search for a match of the body anywhere in
the input, the start pinned to position 0 by `^` and the end pinned to the
end of the input by `$`. -/
def RegExp.test (re : RegExp) (s : String) : Bool :=
  let cs := s.data
  let starts := if re.anchoredStart then [0] else List.range (cs.length + 1)
  starts.any fun i =>
    let t := cs.drop i
    if re.anchoredEnd then re.body.accepts t
    else (List.range (t.length + 1)).any fun k => re.body.accepts (t.take k)

/-- Parse a nonempty run of decimal digits. -/
def parseNum (cs : List Char) : Option (Nat × List Char) :=
  let ds := cs.takeWhile (·.isDigit)
  if ds.isEmpty then none
  else some (ds.foldl (fun n c => n * 10 + (c.toNat - 48)) 0, cs.dropWhile (·.isDigit))

/-- Parse an optional counted-repetition quantifier (`\x7bn\x7d` or
`\x7bm,n\x7d`) following the atom `r`.  An out-of-order `\x7bm,n\x7d`
with `m > n` is a JS SyntaxError, so it fails here too. -/
def parseQuant (r : Regex) (cs : List Char) : Option (Regex × List Char) :=
  match cs with
  | '\x7b' :: rest =>
    match parseNum rest with
    | none => none
    | some (n, rest1) =>
      match rest1 with
      | '\x7d' :: rest2 => some (.rep r n n, rest2)
      | ',' :: rest2 =>
        match parseNum rest2 with
        | none => none
        | some (m, rest3) =>
          match rest3 with
          | '\x7d' :: rest4 => if m < n then none else some (.rep r n m, rest4)
          | _ => none
      | _ => none
  | _ => some (r, cs)

/-- Parse the items of a (positive) character class up to the closing
`]`, as an alternation of ranges and single characters.  Kept inside JS
semantics by failing on: escaped alphanumerics (class escapes such as
`\d`), an escaped character used as a range endpoint, and out-of-order
ranges (a JS SyntaxError).  A leading `^` (negated class) is rejected by
the caller. -/
def parseClassItems : Nat → List Char → Option (Regex × List Char)
  | 0, _ => none
  | fuel + 1, cs =>
    match cs with
    | ']' :: rest => some (.emp, rest)
    | '\\' :: c :: rest =>
      if c.isAlphanum then none
      else
        match rest with
        | '-' :: b :: _ =>
          if b = ']' then
            match parseClassItems fuel rest with
            | none => none
            | some (r2, rest2) => some (.alt (.cls c c) r2, rest2)
          else none
        | _ =>
          match parseClassItems fuel rest with
          | none => none
          | some (r2, rest2) => some (.alt (.cls c c) r2, rest2)
    | a :: '-' :: b :: rest =>
      if b = ']' ∨ b = '\\' ∨ b < a then none
      else
        match parseClassItems fuel rest with
        | none => none
        | some (r2, rest2) => some (.alt (.cls a b) r2, rest2)
    | a :: rest =>
      match parseClassItems fuel rest with
      | none => none
      | some (r2, rest2) => some (.alt (.cls a a) r2, rest2)
    | [] => none

mutual

/-- Parse a sequence of quantified atoms, stopping at `)` or the end. -/
def parseSeq : Nat → List Char → Option (Regex × List Char)
  | 0, _ => none
  | fuel + 1, cs =>
    match cs with
    | [] => some (.eps, [])
    | ')' :: _ => some (.eps, cs)
    | _ =>
      match parseAtom fuel cs with
      | none => none
      | some (a, rest) =>
        match parseQuant a rest with
        | none => none
        | some (aq, rest1) =>
          match parseSeq fuel rest1 with
          | none => none
          | some (b, rest2) => some (.seq aq b, rest2)

/-- Parse one atom: an escaped non-alphanumeric character (a JS identity
escape), a positive character class (a leading `^`, i.e. a negated class,
is rejected), a group, or a literal character.  A lone trailing backslash
is a JS SyntaxError, so it fails here too. -/
def parseAtom : Nat → List Char → Option (Regex × List Char)
  | 0, _ => none
  | fuel + 1, cs =>
    match cs with
    | '\\' :: c :: rest => if c.isAlphanum then none else some (.cls c c, rest)
    | '[' :: '^' :: _ => none
    | '[' :: rest => parseClassItems fuel rest
    | '(' :: rest =>
      match parseSeq fuel rest with
      | none => none
      | some (r, rest1) =>
        match rest1 with
        | ')' :: rest2 => some (r, rest2)
        | _ => none
    | c :: rest =>
      if c = '.' || c = '*' || c = '+' || c = '?' || c = '|' || c = ')' ||
          c = ']' || c = '^' || c = '$' || c = '\x7b' || c = '\x7d' ||
          c = '\\' then none
      else some (.cls c c, rest)
    | [] => none

end

/-- JS `new RegExp(pattern)` on the modelled subset: strip a leading `^`
and an unescaped trailing `$` as anchors, then parse the body.  `none`
models a pattern outside the subset (including a thrown SyntaxError). -/
def newRegExp (pattern : String) : Option RegExp :=
  let cs := pattern.data
  let aStart := match cs with
    | '^' :: _ => true
    | _ => false
  let cs1 := if aStart then cs.tail else cs
  let aEnd := match cs1.reverse with
    | '$' :: '\\' :: _ => false
    | '$' :: _ => true
    | _ => false
  let cs2 := if aEnd then cs1.dropLast else cs1
  match parseSeq (2 * cs2.length + 2) cs2 with
  | some (r, []) => some ⟨aStart, aEnd, r⟩
  | _ => none

/-!
### The matcher (`_findRecord` and its inner helpers)
-/

/-- `_evaluateRecord` (src/index.js lines 113–118): in regex mode, compile
`options.record` and `test` the candidate; otherwise string equality
against the target with and without an appended trailing dot.  `none`
models the throw on an uncompilable pattern. -/
def evaluateRecord (options : MatchOptions) (recordValue : String) : Option Bool :=
  match options.matchMode with
  | .regex => (newRegExp options.record).map fun re => re.test recordValue
  | .equality => some (recordValue == options.record ++ "." || recordValue == options.record)

/-- `_createResultEntry` (src/index.js lines 120–128). -/
def createResultEntry (hostedZone : HostedZoneFull)
    (recordType recordName recordValue : String) : ResultEntry :=
  { hostedZoneId := hostedZone.Id,
    hostedZoneName := hostedZone.Name,
    recordType, recordName, recordValue }

/-- The inner loop of `_findRecord` over `recordSet.ResourceRecords`: each
matching value pushes one entry, in value order. -/
def evalValues (options : MatchOptions) (hostedZone : HostedZoneFull)
    (recordSet : ResourceRecordSet) :
    List ResourceRecord → Option (List ResultEntry)
  | [] => some []
  | r :: rest =>
    match evaluateRecord options r.Value with
    | none => none
    | some b =>
      (evalValues options hostedZone recordSet rest).map fun tail =>
        (if b then
          [createResultEntry hostedZone recordSet.«Type» recordSet.Name r.Value]
        else []) ++ tail

/-- The per-record-set branch of `_findRecord` (src/index.js lines
92–108): an alias target is evaluated once with record type `"Alias"`;
otherwise each literal value is evaluated; a record set with neither is
only logged and contributes nothing. -/
def rowsForRecordSet (options : MatchOptions) (hostedZone : HostedZoneFull)
    (recordSet : ResourceRecordSet) : Option (List ResultEntry) :=
  match recordSet.AliasTarget with
  | some aliasTarget =>
    match evaluateRecord options aliasTarget.DNSName with
    | none => none
    | some b =>
      some (if b then
        [createResultEntry hostedZone "Alias" recordSet.Name aliasTarget.DNSName]
      else [])
  | none =>
    match recordSet.ResourceRecords with
    | some records => evalValues options hostedZone recordSet records
    | none => some []

/-- The loop of `_findRecord` over one zone's `recordSets`, in order. -/
def rowsForRecordSets (options : MatchOptions) (hostedZone : HostedZoneFull) :
    List ResourceRecordSet → Option (List ResultEntry)
  | [] => some []
  | recordSet :: rest =>
    match rowsForRecordSet options hostedZone recordSet with
    | none => none
    | some rows =>
      (rowsForRecordSets options hostedZone rest).map fun tail => rows ++ tail

/-- `_findRecord` (src/index.js lines 88–111): walk zones in order, record
sets in order within a zone, values in order within a record set,
collecting the matching entries. -/
def findRecord (options : MatchOptions) :
    List HostedZoneFull → Option (List ResultEntry)
  | [] => some []
  | hostedZone :: rest =>
    match rowsForRecordSets options hostedZone hostedZone.recordSets with
    | none => none
    | some rows =>
      (findRecord options rest).map fun tail => rows ++ tail

/-!
### Pagination (`_listHostedZones`, `_getRecordSetsForZone`,
`_getRecordSetsForZones`) and the pipeline (`run`)

Each enumerator is embedded together with the trace of
(request parameters, response) pairs of the API calls it issued, so that
the cursor-threading contract is a statement about the trace.
-/

/-- A `ListHostedZones` response (the fields the program reads). -/
structure ZoneListResponse where
  HostedZones : List HostedZone
  IsTruncated : Bool
  NextMarker : Option String
deriving Repr, DecidableEq

/-- The Route 53 client's `ListHostedZones` operation: the request is its
`Marker` parameter; `.error` models a thrown API error. -/
abbrev ZoneApi := Option String → Except String ZoneListResponse

/-- `_listHostedZones` (src/index.js lines 34–48): call the API with the
current marker, normalize and append each returned zone, and recurse with
`NextMarker` while `IsTruncated`.  Also returns the trace of
(marker, response) pairs.  `none` means the fuel ran out. -/
def listHostedZonesAux (api : ZoneApi) :
    Nat → List HostedZone → Option String →
    Option (Except String
      (List (Option String × ZoneListResponse) × List HostedZone))
  | 0, _, _ => none
  | fuel + 1, hostedZones, marker =>
    match api marker with
    | .error e => some (.error e)
    | .ok response =>
      let hostedZones2 := hostedZones ++ response.HostedZones.map normalizeZone
      if response.IsTruncated then
        match listHostedZonesAux api fuel hostedZones2 response.NextMarker with
        | none => none
        | some (.error e) => some (.error e)
        | some (.ok (trace, result)) =>
          some (.ok ((marker, response) :: trace, result))
      else
        some (.ok ([(marker, response)], hostedZones2))

/-- The top-level call `_listHostedZones()`: empty accumulator, no
marker. -/
def listHostedZones (api : ZoneApi) (fuel : Nat) :
    Option (Except String
      (List (Option String × ZoneListResponse) × List HostedZone)) :=
  listHostedZonesAux api fuel [] none

/-- A `ListResourceRecordSets` response (the fields the program reads).
The `Next*` cursor fields may be absent. -/
structure ListResourceRecordSetsResponse where
  ResourceRecordSets : List ResourceRecordSet
  IsTruncated : Bool
  NextRecordName : Option String
  NextRecordType : Option String
  NextRecordIdentifier : Option String
deriving Repr, DecidableEq

/-- The `startRecord` object threaded through `_getRecordSetsForZone`
(built from a response's `Next*` fields, each possibly absent). -/
structure StartRecord where
  name : Option String
  type : Option String
  identifier : Option String
deriving Repr, DecidableEq

/-- The parameters of one `ListResourceRecordSetsCommand` (src/index.js
lines 70–75): `startRecord?.field` is `none` when `startRecord` itself is
absent. -/
structure ListRecordSetsParams where
  HostedZoneId : String
  StartRecordName : Option String
  StartRecordType : Option String
  StartRecordIdentifier : Option String
deriving Repr, DecidableEq

/-- Build the request parameters from the zone id and the optional
`startRecord`, exactly as lines 70–75 do. -/
def mkRecordSetsParams (hostedZoneId : String) (startRecord : Option StartRecord) :
    ListRecordSetsParams :=
  { HostedZoneId := hostedZoneId,
    StartRecordName := startRecord.bind (·.name),
    StartRecordType := startRecord.bind (·.type),
    StartRecordIdentifier := startRecord.bind (·.identifier) }

/-- The client's `ListResourceRecordSets` operation. -/
abbrev RecordSetApi := ListRecordSetsParams → Except String ListResourceRecordSetsResponse

/-- `_getRecordSetsForZone` (src/index.js lines 69–86): call the API,
concatenate the returned record sets in response order, and recurse with
the response's `Next*` triple as the new `startRecord` while
`IsTruncated`.  Also returns the trace of (params, response) pairs. -/
def getRecordSetsForZoneAux (api : RecordSetApi) (hostedZone : HostedZone) :
    Nat → List ResourceRecordSet → Option StartRecord →
    Option (Except String
      (List (ListRecordSetsParams × ListResourceRecordSetsResponse) ×
        List ResourceRecordSet))
  | 0, _, _ => none
  | fuel + 1, recordSets, startRecord =>
    let params := mkRecordSetsParams hostedZone.Id startRecord
    match api params with
    | .error e => some (.error e)
    | .ok response =>
      let recordSets2 := recordSets ++ response.ResourceRecordSets
      if response.IsTruncated then
        match getRecordSetsForZoneAux api hostedZone fuel recordSets2
            (some ⟨response.NextRecordName, response.NextRecordType,
              response.NextRecordIdentifier⟩) with
        | none => none
        | some (.error e) => some (.error e)
        | some (.ok (trace, result)) =>
          some (.ok ((params, response) :: trace, result))
      else
        some (.ok ([(params, response)], recordSets2))

/-- The top-level call `_getRecordSetsForZone(hostedZone)`: empty
accumulator, no `startRecord`. -/
def getRecordSetsForZone (api : RecordSetApi) (hostedZone : HostedZone)
    (fuel : Nat) :
    Option (Except String
      (List (ListRecordSetsParams × ListResourceRecordSetsResponse) ×
        List ResourceRecordSet)) :=
  getRecordSetsForZoneAux api hostedZone fuel [] none

/-- `_getRecordSetsForZones` (src/index.js lines 55–59): for each zone in
order, fetch its record sets and attach them (`hostedZone.recordSets =
...`, modelled as producing a `HostedZoneFull`).  A thrown API error
aborts the loop and propagates. -/
def getRecordSetsForZones (api : RecordSetApi) (fuel : Nat) :
    List HostedZone → Option (Except String (List HostedZoneFull))
  | [] => some (.ok [])
  | hostedZone :: rest =>
    match getRecordSetsForZone api hostedZone fuel with
    | none => none
    | some (.error e) => some (.error e)
    | some (.ok (_, recordSets)) =>
      match getRecordSetsForZones api fuel rest with
      | none => none
      | some (.error e) => some (.error e)
      | some (.ok fulls) =>
        some (.ok (⟨hostedZone.Id, hostedZone.Name, recordSets⟩ :: fulls))

/-- The `run` pipeline (src/index.js lines 14–24) up to the matcher:
list zones, attach every zone's record sets, then match.  Reporting
(`_printResult`) is out of scope. -/
def runPipeline (zoneApi : ZoneApi) (recordSetApi : RecordSetApi)
    (options : MatchOptions) (fuel : Nat) :
    Option (Except String (List ResultEntry)) :=
  match listHostedZones zoneApi fuel with
  | none => none
  | some (.error e) => some (.error e)
  | some (.ok (_, hostedZones)) =>
    match getRecordSetsForZones recordSetApi fuel hostedZones with
    | none => none
    | some (.error e) => some (.error e)
    | some (.ok full) =>
      match findRecord options full with
      | none => none
      | some rows => some (.ok rows)

/-!
### Concrete API instances used as witnesses and counterexamples
-/

/-- A two-page zone listing that returns the same zone (`/hostedzone/Z1`)
on both pages. -/
def dupZoneApi : ZoneApi := fun marker =>
  match marker with
  | none => .ok ⟨[⟨"/hostedzone/Z1", "example.com."⟩], true, some "m1"⟩
  | some "m1" => .ok ⟨[⟨"/hostedzone/Z1", "example.com."⟩], false, none⟩
  | some _ => .error "unexpected marker"

/-- A one-page zone listing with a single zone. -/
def oneZoneApi : ZoneApi := fun _ =>
  .ok ⟨[⟨"/hostedzone/Z9", "one.example.com."⟩], false, none⟩

/-- A zone-listing client whose every call throws. -/
def failZoneApi : ZoneApi := fun _ => .error "zone boom"

/-- A record-set client whose every call throws. -/
def failRecordSetApi : RecordSetApi := fun _ => .error "record boom"

/-- A two-page record-set listing: the first page (no start cursor)
announces a next name/type cursor, and the second page is final. -/
def twoPageRecordSetApi : RecordSetApi := fun params =>
  match params.StartRecordName with
  | none =>
    .ok ⟨[⟨"a.example.com.", "A", none, some [⟨"1.1.1.1"⟩]⟩], true,
      some "b.example.com.", some "A", none⟩
  | some _ =>
    .ok ⟨[⟨"b.example.com.", "A", none, some [⟨"2.2.2.2"⟩]⟩], false,
      none, none, none⟩

/-!
### Helper lemmas
-/

/-- A successful `_listHostedZones` run returns the accumulator followed by
every traced page's zones, normalized, in page order. -/
theorem listHostedZonesAux_flatten (api : ZoneApi) :
    ∀ (fuel : Nat) (acc : List HostedZone) (marker : Option String)
      (trace : List (Option String × ZoneListResponse)) (result : List HostedZone),
    listHostedZonesAux api fuel acc marker = some (.ok (trace, result)) →
    result = acc ++ trace.flatMap (fun p => p.2.HostedZones.map normalizeZone) := by
  intro fuel
  induction fuel with
  | zero => intro acc marker trace result h; simp [listHostedZonesAux] at h
  | succ n ih =>
    intro acc marker trace result h
    rw [listHostedZonesAux] at h
    split at h
    · simp at h
    · dsimp only at h
      split at h
      · split at h
        · simp at h
        · simp at h
        · rename_i tr2 res2 hrec
          simp only [Option.some.injEq, Except.ok.injEq, Prod.mk.injEq] at h
          obtain ⟨htrace, hresult⟩ := h
          subst htrace hresult
          have hres := ih _ _ _ _ hrec
          rw [hres]
          simp
      · simp only [Option.some.injEq, Except.ok.injEq, Prod.mk.injEq] at h
        obtain ⟨htrace, hresult⟩ := h
        subst htrace hresult
        simp

/-- In a successful `_listHostedZones` run, the first request carries the
initial marker, and each later request carries exactly the `NextMarker` of
the previous (truncated) response. -/
theorem listHostedZonesAux_trace (api : ZoneApi) :
    ∀ (fuel : Nat) (acc : List HostedZone) (marker : Option String)
      (trace : List (Option String × ZoneListResponse)) (result : List HostedZone),
    listHostedZonesAux api fuel acc marker = some (.ok (trace, result)) →
    trace.head?.map Prod.fst = some marker ∧
    List.Chain' (fun a b => b.1 = a.2.NextMarker ∧ a.2.IsTruncated = true) trace := by
  intro fuel
  induction fuel with
  | zero => intro acc marker trace result h; simp [listHostedZonesAux] at h
  | succ n ih =>
    intro acc marker trace result h
    rw [listHostedZonesAux] at h
    split at h
    · simp at h
    · rename_i response heq
      dsimp only at h
      split at h
      · rename_i htr
        split at h
        · simp at h
        · simp at h
        · rename_i tr2 res2 hrec
          simp only [Option.some.injEq, Except.ok.injEq, Prod.mk.injEq] at h
          obtain ⟨htrace, hresult⟩ := h
          subst htrace hresult
          obtain ⟨ihhead, ihchain⟩ := ih _ _ _ _ hrec
          refine ⟨by simp, List.chain'_cons'.mpr ⟨?_, ihchain⟩⟩
          intro y hy
          rw [Option.mem_def] at hy
          rw [hy] at ihhead
          simp at ihhead
          exact ⟨ihhead, htr⟩
      · simp only [Option.some.injEq, Except.ok.injEq, Prod.mk.injEq] at h
        obtain ⟨htrace, hresult⟩ := h
        subst htrace hresult
        exact ⟨by simp, List.chain'_singleton _⟩

/-- In a successful `_getRecordSetsForZone` run, the first request carries
the initial `startRecord` cursor (no cursor at the top-level call), and
each later request carries exactly the previous (truncated) response's
`NextRecordName`/`NextRecordType`/`NextRecordIdentifier` triple. -/
theorem getRecordSetsForZoneAux_trace (api : RecordSetApi) (z : HostedZone) :
    ∀ (fuel : Nat) (acc : List ResourceRecordSet) (startRecord : Option StartRecord)
      (trace : List (ListRecordSetsParams × ListResourceRecordSetsResponse))
      (result : List ResourceRecordSet),
    getRecordSetsForZoneAux api z fuel acc startRecord = some (.ok (trace, result)) →
    trace.head?.map Prod.fst = some (mkRecordSetsParams z.Id startRecord) ∧
    List.Chain' (fun a b =>
      b.1 = mkRecordSetsParams z.Id
        (some ⟨a.2.NextRecordName, a.2.NextRecordType, a.2.NextRecordIdentifier⟩) ∧
      a.2.IsTruncated = true) trace := by
  intro fuel
  induction fuel with
  | zero => intro acc s trace result h; simp [getRecordSetsForZoneAux] at h
  | succ n ih =>
    intro acc s trace result h
    rw [getRecordSetsForZoneAux] at h
    split at h
    · simp at h
    · rename_i response heq
      dsimp only at h
      split at h
      · rename_i htr
        split at h
        · simp at h
        · simp at h
        · rename_i tr2 res2 hrec
          simp only [Option.some.injEq, Except.ok.injEq, Prod.mk.injEq] at h
          obtain ⟨htrace, hresult⟩ := h
          subst htrace hresult
          obtain ⟨ihhead, ihchain⟩ := ih _ _ _ _ hrec
          refine ⟨by simp, List.chain'_cons'.mpr ⟨?_, ihchain⟩⟩
          intro y hy
          rw [Option.mem_def] at hy
          rw [hy] at ihhead
          simp at ihhead
          exact ⟨ihhead, htr⟩
      · simp only [Option.some.injEq, Except.ok.injEq, Prod.mk.injEq] at h
        obtain ⟨htrace, hresult⟩ := h
        subst htrace hresult
        exact ⟨by simp, List.chain'_singleton _⟩

/-- A successful `_getRecordSetsForZone` run returns the accumulator
followed by every traced page's record sets, in page order. -/
theorem getRecordSetsForZoneAux_flatten (api : RecordSetApi) (z : HostedZone) :
    ∀ (fuel : Nat) (acc : List ResourceRecordSet) (startRecord : Option StartRecord)
      (trace : List (ListRecordSetsParams × ListResourceRecordSetsResponse))
      (result : List ResourceRecordSet),
    getRecordSetsForZoneAux api z fuel acc startRecord = some (.ok (trace, result)) →
    result = acc ++ trace.flatMap (fun p => p.2.ResourceRecordSets) := by
  intro fuel
  induction fuel with
  | zero => intro acc s trace result h; simp [getRecordSetsForZoneAux] at h
  | succ n ih =>
    intro acc s trace result h
    rw [getRecordSetsForZoneAux] at h
    split at h
    · simp at h
    · dsimp only at h
      split at h
      · split at h
        · simp at h
        · simp at h
        · rename_i tr2 res2 hrec
          simp only [Option.some.injEq, Except.ok.injEq, Prod.mk.injEq] at h
          obtain ⟨htrace, hresult⟩ := h
          subst htrace hresult
          have hres := ih _ _ _ _ hrec
          rw [hres]
          simp
      · simp only [Option.some.injEq, Except.ok.injEq, Prod.mk.injEq] at h
        obtain ⟨htrace, hresult⟩ := h
        subst htrace hresult
        simp

/-- Each matching literal value contributes one row, so the inner loop
yields at most one row per value. -/
theorem evalValues_length_le (options : MatchOptions) (z : HostedZoneFull)
    (rs : ResourceRecordSet) :
    ∀ (records : List ResourceRecord) (rows : List ResultEntry),
    evalValues options z rs records = some rows → rows.length ≤ records.length := by
  intro records
  induction records with
  | nil =>
    intro rows h
    simp only [evalValues, Option.some.injEq] at h
    subst h
    simp
  | cons r rest ih =>
    intro rows h
    simp only [evalValues] at h
    split at h
    · simp at h
    · rename_i b heval
      cases hrec : evalValues options z rs rest with
      | none => rw [hrec] at h; simp at h
      | some tail =>
        rw [hrec] at h
        simp only [Option.map_some', Option.some.injEq] at h
        subst h
        have := ih tail hrec
        cases b <;> simp <;> omega

/-- Every row produced from the literal-values branch carries the record
set's `Type`. -/
theorem evalValues_mem_recordType (options : MatchOptions) (z : HostedZoneFull)
    (rs : ResourceRecordSet) :
    ∀ (records : List ResourceRecord) (rows : List ResultEntry),
    evalValues options z rs records = some rows →
    ∀ row ∈ rows, row.recordType = rs.«Type» := by
  intro records
  induction records with
  | nil =>
    intro rows h
    simp only [evalValues, Option.some.injEq] at h
    subst h
    simp
  | cons r rest ih =>
    intro rows h
    simp only [evalValues] at h
    split at h
    · simp at h
    · rename_i b heval
      cases hrec : evalValues options z rs rest with
      | none => rw [hrec] at h; simp at h
      | some tail =>
        rw [hrec] at h
        simp only [Option.map_some', Option.some.injEq] at h
        subst h
        intro row hrow
        rw [List.mem_append] at hrow
        rcases hrow with hrow | hrow
        · cases b with
          | false => simp at hrow
          | true =>
            simp only [if_true, List.mem_singleton] at hrow
            subst hrow
            rfl
        · exact ih tail hrec row hrow

/-- The inner loop distributes over appending value lists. -/
theorem evalValues_append (options : MatchOptions) (z : HostedZoneFull)
    (rs : ResourceRecordSet) :
    ∀ (vs1 vs2 : List ResourceRecord) (l1 l2 : List ResultEntry),
    evalValues options z rs vs1 = some l1 → evalValues options z rs vs2 = some l2 →
    evalValues options z rs (vs1 ++ vs2) = some (l1 ++ l2) := by
  intro vs1
  induction vs1 with
  | nil =>
    intro vs2 l1 l2 h1 h2
    simp only [evalValues, Option.some.injEq] at h1
    subst h1
    simpa using h2
  | cons r rest ih =>
    intro vs2 l1 l2 h1 h2
    simp only [evalValues] at h1 ⊢
    split at h1
    · simp at h1
    · rename_i b heval
      cases hrec : evalValues options z rs rest with
      | none => rw [hrec] at h1; simp at h1
      | some tail =>
        rw [hrec] at h1
        simp only [Option.map_some', Option.some.injEq] at h1
        subst h1
        simp only [List.append_eq]
        rw [ih vs2 tail l2 hrec h2]
        simp

/-- The record-set loop distributes over appending record-set lists. -/
theorem rowsForRecordSets_append (options : MatchOptions) (z : HostedZoneFull) :
    ∀ (rss1 rss2 : List ResourceRecordSet) (l1 l2 : List ResultEntry),
    rowsForRecordSets options z rss1 = some l1 →
    rowsForRecordSets options z rss2 = some l2 →
    rowsForRecordSets options z (rss1 ++ rss2) = some (l1 ++ l2) := by
  intro rss1
  induction rss1 with
  | nil =>
    intro rss2 l1 l2 h1 h2
    simp only [rowsForRecordSets, Option.some.injEq] at h1
    subst h1
    simpa using h2
  | cons rs rest ih =>
    intro rss2 l1 l2 h1 h2
    simp only [rowsForRecordSets] at h1 ⊢
    split at h1
    · simp at h1
    · rename_i rows hrows
      cases hrec : rowsForRecordSets options z rest with
      | none => rw [hrec] at h1; simp at h1
      | some tail =>
        rw [hrec] at h1
        simp only [Option.map_some', Option.some.injEq] at h1
        subst h1
        simp only [List.append_eq]
        rw [ih rss2 tail l2 hrec h2]
        simp

/-- The zone loop distributes over appending zone lists. -/
theorem findRecord_append (options : MatchOptions) :
    ∀ (zs1 zs2 : List HostedZoneFull) (l1 l2 : List ResultEntry),
    findRecord options zs1 = some l1 → findRecord options zs2 = some l2 →
    findRecord options (zs1 ++ zs2) = some (l1 ++ l2) := by
  intro zs1
  induction zs1 with
  | nil =>
    intro zs2 l1 l2 h1 h2
    simp only [findRecord, Option.some.injEq] at h1
    subst h1
    simpa using h2
  | cons z rest ih =>
    intro zs2 l1 l2 h1 h2
    simp only [findRecord] at h1 ⊢
    split at h1
    · simp at h1
    · rename_i rows hrows
      cases hrec : findRecord options rest with
      | none => rw [hrec] at h1; simp at h1
      | some tail =>
        rw [hrec] at h1
        simp only [Option.map_some', Option.some.injEq] at h1
        subst h1
        simp only [List.append_eq]
        rw [ih zs2 tail l2 hrec h2]
        simp

/-- Without anchors, `test` succeeds exactly when some substring (a take of
a drop) is accepted by the body. -/
theorem RegExp.test_search (re : RegExp) (v : String)
    (hs : re.anchoredStart = false) (he : re.anchoredEnd = false) :
    re.test v = true ↔ ∃ i k, re.body.accepts ((v.data.drop i).take k) = true := by
  unfold RegExp.test
  rw [hs, he]
  simp only [Bool.false_eq_true, if_false, List.any_eq_true, List.mem_range]
  constructor
  · rintro ⟨i, hi, k, hk, hacc⟩
    exact ⟨i, k, hacc⟩
  · rintro ⟨i, k, hacc⟩
    by_cases hi : i ≤ v.data.length
    · by_cases hk : k ≤ (v.data.drop i).length
      · exact ⟨i, by omega, k, by omega, hacc⟩
      · refine ⟨i, by omega, (v.data.drop i).length, by omega, ?_⟩
        rw [List.take_of_length_le (le_refl _)]
        rwa [List.take_of_length_le (by omega)] at hacc
    · refine ⟨v.data.length, by omega, 0, by omega, ?_⟩
      rw [List.drop_length, List.take_nil]
      have hdrop : v.data.drop i = [] := List.drop_eq_nil_of_le (by omega)
      rw [hdrop, List.take_nil] at hacc
      exact hacc

/-- With both anchors, `test` succeeds exactly when the body accepts the
whole input. -/
theorem RegExp.test_anchored (re : RegExp) (v : String)
    (hs : re.anchoredStart = true) (he : re.anchoredEnd = true) :
    re.test v = true ↔ re.body.accepts v.data = true := by
  unfold RegExp.test
  rw [hs, he]
  simp

/-- An aggregation run copies each zone's `Id` and `Name` verbatim onto
the populated zone, in order. -/
theorem getRecordSetsForZones_ids (api : RecordSetApi) (fuel : Nat) :
    ∀ (zones : List HostedZone) (fulls : List HostedZoneFull),
    getRecordSetsForZones api fuel zones = some (.ok fulls) →
    fulls.map (fun z => (z.Id, z.Name)) = zones.map (fun z => (z.Id, z.Name)) := by
  intro zones
  induction zones with
  | nil =>
    intro fulls h
    simp only [getRecordSetsForZones, Option.some.injEq, Except.ok.injEq] at h
    subst h
    simp
  | cons z rest ih =>
    intro fulls h
    simp only [getRecordSetsForZones] at h
    split at h
    · simp at h
    · simp at h
    · rename_i pr hz
      split at h
      · simp at h
      · simp at h
      · rename_i fulls2 hrec
        simp only [Option.some.injEq, Except.ok.injEq] at h
        subst h
        simp [ih _ hrec]

/-!
### The claims
-/

/-- C1, as stated, is false: the accumulating collection of
`_listHostedZones` is a JS `Set` of object references, not of normalized
identities, and the zone objects parsed from different pages are distinct
objects even when structurally equal.  With an API returning the same zone
`/hostedzone/Z1` on each of two pages, the result contains two entries
whose normalized ids are both `"Z1"` — inserting a zone whose normalized
identity already exists is not a no-op. -/
theorem C1_duplicate_zone_counterexample :
    listHostedZones dupZoneApi 2 =
      some (.ok
        ([(none, ⟨[⟨"/hostedzone/Z1", "example.com."⟩], true, some "m1"⟩),
          (some "m1", ⟨[⟨"/hostedzone/Z1", "example.com."⟩], false, none⟩)],
         [⟨"Z1", "example.com."⟩, ⟨"Z1", "example.com."⟩])) ∧
    ¬ List.Pairwise (fun a b => a.Id ≠ b.Id)
        [HostedZone.mk "Z1" "example.com.", HostedZone.mk "Z1" "example.com."] := by
  refine ⟨rfl, fun hp => ?_⟩
  exact (List.pairwise_cons.mp hp).1 ⟨"Z1", "example.com."⟩ (by simp) rfl

/-- C1 (amended): a successful `_listHostedZones` run over K pages returns
the concatenation of all K pages' zones in page order, each zone's id
normalized; no deduplication by normalized id takes place, so a zone
returned on two pages appears twice. -/
theorem C1_pagination_union (api : ZoneApi) (fuel : Nat)
    (trace : List (Option String × ZoneListResponse)) (result : List HostedZone)
    (h : listHostedZones api fuel = some (.ok (trace, result))) :
    result = trace.flatMap (fun p => p.2.HostedZones.map normalizeZone) := by
  simpa using listHostedZonesAux_flatten api fuel [] none trace result h

/-- C1 witness: the amended theorem applied to the concrete two-page
duplicate-zone API. -/
theorem C1_pagination_union_witness :
    [HostedZone.mk "Z1" "example.com.", HostedZone.mk "Z1" "example.com."] =
      [((none : Option String),
          ZoneListResponse.mk [⟨"/hostedzone/Z1", "example.com."⟩] true (some "m1")),
        (some "m1",
          ZoneListResponse.mk [⟨"/hostedzone/Z1", "example.com."⟩] false none)].flatMap
        (fun p => p.2.HostedZones.map normalizeZone) :=
  C1_pagination_union dupZoneApi 2 _ _ rfl

/-- C2: with match mode equality, a candidate matches exactly when it
equals the target or the target with one trailing dot appended; the
candidate keeps its own trailing dot, giving the documented asymmetry on
`"example.com"` versus `"example.com."`. -/
theorem C2_equality_dot_asymmetry :
    (∀ (t v : String),
      evaluateRecord ⟨t, .equality⟩ v = some true ↔ (v = t ++ "." ∨ v = t)) ∧
    evaluateRecord ⟨"example.com", .equality⟩ "example.com" = some true ∧
    evaluateRecord ⟨"example.com", .equality⟩ "example.com." = some true ∧
    evaluateRecord ⟨"example.com.", .equality⟩ "example.com." = some true ∧
    evaluateRecord ⟨"example.com.", .equality⟩ "example.com" = some false := by
  refine ⟨fun t v => ?_, by decide, by decide, by decide, by decide⟩
  simp [evaluateRecord]

/-- C3: with match mode regex, evaluation is `test` of the compiled
pattern; `test` has search semantics — without anchors it succeeds exactly
when the body matches some substring, and with both anchors exactly when
the body matches the whole candidate.  The pattern `172` matches
`"172.16.0.1"` as a substring, and the anchored pattern
`^172(\.[0-9]{1,3}){3}$` matches `"172.16.0.1"` but not
`"10.172.16.0.1"`. -/
theorem C3_regex_search_semantics :
    (∀ (pat v : String) (re : RegExp), newRegExp pat = some re →
      evaluateRecord ⟨pat, .regex⟩ v = some (re.test v)) ∧
    (∀ (re : RegExp) (v : String),
      re.anchoredStart = false → re.anchoredEnd = false →
      (re.test v = true ↔ ∃ i k, re.body.accepts ((v.data.drop i).take k) = true)) ∧
    (∀ (re : RegExp) (v : String),
      re.anchoredStart = true → re.anchoredEnd = true →
      (re.test v = true ↔ re.body.accepts v.data = true)) ∧
    evaluateRecord ⟨"172", .regex⟩ "172.16.0.1" = some true ∧
    evaluateRecord ⟨"^172(\\.[0-9]\x7b1,3\x7d)\x7b3\x7d$", .regex⟩ "172.16.0.1" = some true ∧
    evaluateRecord ⟨"^172(\\.[0-9]\x7b1,3\x7d)\x7b3\x7d$", .regex⟩ "10.172.16.0.1" = some false := by
  refine ⟨fun pat v re h => ?_, RegExp.test_search, RegExp.test_anchored,
    by decide, by decide, by decide⟩
  simp [evaluateRecord, h]

/-- C4: a record set with an alias target contributes at most one row
(even if it also carries stray literal data), and a record set without an
alias target contributes at most one row per literal value. -/
theorem C4_alias_literal_exclusivity (options : MatchOptions)
    (hostedZone : HostedZoneFull) (recordSet : ResourceRecordSet)
    (rows : List ResultEntry)
    (h : rowsForRecordSet options hostedZone recordSet = some rows) :
    (recordSet.AliasTarget.isSome = true → rows.length ≤ 1) ∧
    (∀ records, recordSet.AliasTarget = none →
      recordSet.ResourceRecords = some records → rows.length ≤ records.length) := by
  constructor
  · intro halias
    cases hat : recordSet.AliasTarget with
    | none => rw [hat] at halias; simp at halias
    | some a =>
      simp only [rowsForRecordSet, hat] at h
      split at h
      · simp at h
      · rename_i b heval
        simp only [Option.some.injEq] at h
        subst h
        cases b <;> simp
  · intro records hat hrr
    simp only [rowsForRecordSet, hat, hrr] at h
    exact evalValues_length_le options hostedZone recordSet records rows h

/-- C4 witness: a record set with both an alias target and stray literal
data yields exactly one row for a matching alias name. -/
theorem C4_alias_literal_exclusivity_witness :
    [ResultEntry.mk "Z" "z.example.com." "Alias" "r.example.com." "d.example.com."].length ≤ 1 :=
  (C4_alias_literal_exclusivity ⟨"d.example.com.", .equality⟩
      ⟨"Z", "z.example.com.", []⟩
      ⟨"r.example.com.", "A", some ⟨"d.example.com."⟩, some [⟨"stray"⟩]⟩
      _ rfl).1 rfl

/-- C5: output order is deterministic and compositional — the matcher
distributes over appending zone lists, record-set lists within a zone and
value lists within a record set (rows appear in zone order, then
record-set order, then value order), and a record-set enumeration returns
its pages' record sets concatenated in response order. -/
theorem C5_deterministic_order :
    (∀ (options : MatchOptions) (zs1 zs2 : List HostedZoneFull)
        (l1 l2 : List ResultEntry),
      findRecord options zs1 = some l1 → findRecord options zs2 = some l2 →
      findRecord options (zs1 ++ zs2) = some (l1 ++ l2)) ∧
    (∀ (options : MatchOptions) (z : HostedZoneFull)
        (rss1 rss2 : List ResourceRecordSet) (l1 l2 : List ResultEntry),
      rowsForRecordSets options z rss1 = some l1 →
      rowsForRecordSets options z rss2 = some l2 →
      rowsForRecordSets options z (rss1 ++ rss2) = some (l1 ++ l2)) ∧
    (∀ (options : MatchOptions) (z : HostedZoneFull) (rs : ResourceRecordSet)
        (vs1 vs2 : List ResourceRecord) (l1 l2 : List ResultEntry),
      evalValues options z rs vs1 = some l1 → evalValues options z rs vs2 = some l2 →
      evalValues options z rs (vs1 ++ vs2) = some (l1 ++ l2)) ∧
    (∀ (api : RecordSetApi) (z : HostedZone) (fuel : Nat)
        (trace : List (ListRecordSetsParams × ListResourceRecordSetsResponse))
        (result : List ResourceRecordSet),
      getRecordSetsForZone api z fuel = some (.ok (trace, result)) →
      result = trace.flatMap (fun p => p.2.ResourceRecordSets)) :=
  ⟨findRecord_append, rowsForRecordSets_append, evalValues_append,
    fun api z fuel trace result h => by
      simpa using getRecordSetsForZoneAux_flatten api z fuel [] none trace result h⟩

/-- C6: an API error while listing zones, or while listing any single
zone's record sets (all earlier zones having succeeded), propagates as the
result of the whole run — the error value itself, no retry, no partial
rows. -/
theorem C6_error_propagation :
    (∀ (zoneApi : ZoneApi) (recordSetApi : RecordSetApi) (options : MatchOptions)
        (fuel : Nat) (e : String),
      zoneApi none = .error e →
      runPipeline zoneApi recordSetApi options (fuel + 1) = some (.error e)) ∧
    (∀ (recordSetApi : RecordSetApi) (fuel : Nat) (pre : List HostedZone)
        (z : HostedZone) (post : List HostedZone) (e : String),
      (∀ z2 ∈ pre, ∃ r, getRecordSetsForZone recordSetApi z2 fuel = some (.ok r)) →
      getRecordSetsForZone recordSetApi z fuel = some (.error e) →
      getRecordSetsForZones recordSetApi fuel (pre ++ z :: post) = some (.error e)) ∧
    (∀ (zoneApi : ZoneApi) (recordSetApi : RecordSetApi) (options : MatchOptions)
        (fuel : Nat) (trace : List (Option String × ZoneListResponse))
        (zones : List HostedZone) (e : String),
      listHostedZones zoneApi fuel = some (.ok (trace, zones)) →
      getRecordSetsForZones recordSetApi fuel zones = some (.error e) →
      runPipeline zoneApi recordSetApi options fuel = some (.error e)) := by
  refine ⟨?_, ?_, ?_⟩
  · intro zoneApi recordSetApi options fuel e h
    simp [runPipeline, listHostedZones, listHostedZonesAux, h]
  · intro recordSetApi fuel pre
    induction pre with
    | nil =>
      intro z post e hpre hfail
      simp only [List.nil_append, getRecordSetsForZones, hfail]
    | cons p rest ih =>
      intro z post e hpre hfail
      obtain ⟨⟨tr, rs⟩, hp⟩ := hpre p (by simp)
      have hrec := ih z post e (fun z2 hz2 => hpre z2 (by simp [hz2])) hfail
      simp only [List.cons_append, getRecordSetsForZones, hp, List.append_eq, hrec]
  · intro zoneApi recordSetApi options fuel trace zones e h1 h2
    simp [runPipeline, h1, h2]

/-- C7: a record set with neither an alias target nor literal resource
records contributes zero rows and no error, and removing it from a zone's
record-set list leaves the matcher's result unchanged. -/
theorem C7_shape_anomaly_nonfatal :
    ∀ (options : MatchOptions) (z : HostedZoneFull) (nm ty : String),
    rowsForRecordSet options z ⟨nm, ty, none, none⟩ = some [] ∧
    ∀ (rss1 rss2 : List ResourceRecordSet),
      rowsForRecordSets options z (rss1 ++ ⟨nm, ty, none, none⟩ :: rss2) =
        rowsForRecordSets options z (rss1 ++ rss2) := by
  intro options z nm ty
  refine ⟨rfl, ?_⟩
  intro rss1 rss2
  induction rss1 with
  | nil =>
    simp only [List.nil_append, rowsForRecordSets, rowsForRecordSet]
    cases h : rowsForRecordSets options z rss2 <;> simp [h]
  | cons rs rest ih =>
    simp only [List.cons_append, rowsForRecordSets]
    cases h : rowsForRecordSet options z rs <;> simp [h, ih]

/-- C8: cursor threading — in a record-set enumeration the first request
carries no start triple, and each following request carries exactly the
`NextRecordName`/`NextRecordType`/`NextRecordIdentifier` triple of the
previous (truncated) response as its start triple, always for the same
zone; analogously, the zone listing starts with no marker and threads each
truncated response's `NextMarker` as the next request's `Marker`. -/
theorem C8_cursor_threading :
    (∀ (api : RecordSetApi) (z : HostedZone) (fuel : Nat)
        (trace : List (ListRecordSetsParams × ListResourceRecordSetsResponse))
        (result : List ResourceRecordSet),
      getRecordSetsForZone api z fuel = some (.ok (trace, result)) →
      trace.head?.map Prod.fst = some ⟨z.Id, none, none, none⟩ ∧
      List.Chain' (fun a b =>
        b.1.HostedZoneId = z.Id ∧
        b.1.StartRecordName = a.2.NextRecordName ∧
        b.1.StartRecordType = a.2.NextRecordType ∧
        b.1.StartRecordIdentifier = a.2.NextRecordIdentifier ∧
        a.2.IsTruncated = true) trace) ∧
    (∀ (api : ZoneApi) (fuel : Nat)
        (trace : List (Option String × ZoneListResponse)) (result : List HostedZone),
      listHostedZones api fuel = some (.ok (trace, result)) →
      trace.head?.map Prod.fst = some none ∧
      List.Chain' (fun a b => b.1 = a.2.NextMarker ∧ a.2.IsTruncated = true) trace) := by
  constructor
  · intro api z fuel trace result h
    obtain ⟨hhead, hchain⟩ := getRecordSetsForZoneAux_trace api z fuel [] none trace result h
    refine ⟨hhead, hchain.imp ?_⟩
    rintro a b ⟨h1, h2⟩
    refine ⟨?_, ?_, ?_, ?_, h2⟩ <;> simp [h1, mkRecordSetsParams]
  · intro api fuel trace result h
    exact listHostedZonesAux_trace api fuel [] none trace result h

/-- C9: a path-qualified zone id is normalized to its bare final token, an
already-bare id is left unchanged, the normalization happens exactly at
zone discovery (every stored zone is the normalized image of a response
zone), and the aggregation step never touches ids again (it copies `Id`
and `Name` verbatim). -/
theorem C9_id_normalization :
    normalizeId "/hostedzone/Z1" = "Z1" ∧
    (∀ s : String, '/' ∉ s.data → normalizeId s = s) ∧
    (∀ (api : ZoneApi) (fuel : Nat)
        (trace : List (Option String × ZoneListResponse)) (result : List HostedZone),
      listHostedZones api fuel = some (.ok (trace, result)) →
      result = trace.flatMap (fun p => p.2.HostedZones.map normalizeZone)) ∧
    (∀ (api : RecordSetApi) (fuel : Nat) (zones : List HostedZone)
        (fulls : List HostedZoneFull),
      getRecordSetsForZones api fuel zones = some (.ok fulls) →
      fulls.map (fun z => (z.Id, z.Name)) = zones.map (fun z => (z.Id, z.Name))) := by
  refine ⟨by decide, normalizeId_of_no_slash, ?_, getRecordSetsForZones_ids⟩
  intro api fuel trace result h
  simpa using listHostedZonesAux_flatten api fuel [] none trace result h

/-- C10: every row emitted for a record set with an alias target carries
the literal record type `"Alias"`, and every row emitted for a record set
without one carries the record set's own `Type`. -/
theorem C10_alias_recordType (options : MatchOptions) (z : HostedZoneFull)
    (rs : ResourceRecordSet) (rows : List ResultEntry) (row : ResultEntry)
    (h : rowsForRecordSet options z rs = some rows) (hrow : row ∈ rows) :
    (rs.AliasTarget.isSome = true → row.recordType = "Alias") ∧
    (rs.AliasTarget = none → row.recordType = rs.«Type») := by
  constructor
  · intro halias
    cases hat : rs.AliasTarget with
    | none => rw [hat] at halias; simp at halias
    | some a =>
      simp only [rowsForRecordSet, hat] at h
      split at h
      · simp at h
      · rename_i b heval
        simp only [Option.some.injEq] at h
        subst h
        cases b with
        | false => simp at hrow
        | true =>
          simp only [if_true, List.mem_singleton] at hrow
          subst hrow
          rfl
  · intro hat
    simp only [rowsForRecordSet, hat] at h
    cases hrr : rs.ResourceRecords with
    | none =>
      rw [hrr] at h
      simp only [Option.some.injEq] at h
      subst h
      simp at hrow
    | some records =>
      rw [hrr] at h
      exact evalValues_mem_recordType options z rs records rows h row hrow

/-- C10 witness: the row for a matching alias target carries type
`"Alias"`. -/
theorem C10_alias_recordType_witness :
    (ResultEntry.mk "Z" "z.example.com." "Alias" "r.example.com." "d.example.com.").recordType
      = "Alias" :=
  (C10_alias_recordType ⟨"d.example.com.", .equality⟩ ⟨"Z", "z.example.com.", []⟩
      ⟨"r.example.com.", "A", some ⟨"d.example.com."⟩, none⟩
      _ _ rfl (List.mem_singleton.mpr rfl)).1 rfl
